import Mathlib

/-
Verification of the Go-server-crud repository: an in-memory item registry
exposed over HTTP (main.go) with best-effort event publishing to a message
broker (events.go).  The Go code is embedded shallowly: the global mutable
state (`items`, `nextID`) becomes an explicit `Store` value threaded through
the handlers, JSON is a concrete inductive, and the lock/publish/respond
ordering of each handler is recorded as a trace of abstract steps (with the
Go `defer mutex.Unlock()` modelled by emitting the unlock step at handler
return).
-/

namespace GoCrud

/-- Go `Item` struct (main.go / events.go): `ID int`, `Name string`,
with JSON keys `id` and `name`. -/
structure Item where
  ID : Int
  Name : String
deriving DecidableEq, Repr

/-- JSON values as produced/consumed by `encoding/json`.  The program only
serializes integers, so numbers are modelled as `Int`. -/
inductive Json where
  | null
  | bool (b : Bool)
  | num (n : Int)
  | str (s : String)
  | arr (elems : List Json)
  | obj (fields : List (String × Json))
deriving Repr

/-- First field of a JSON object with the given key, as `encoding/json`
resolves struct fields. -/
def lookupField (fields : List (String × Json)) (key : String) : Option Json :=
  match fields with
  | [] => none
  | (k, v) :: rest => if k = key then some v else lookupField rest key

/-- Decoding a JSON object field into a Go `int`: an absent field or JSON
`null` leaves the zero value `0`; a number decodes to itself; any other
shape is a decode error. -/
def decodeIntField : Option Json → Option Int
  | none => some 0
  | some (Json.num n) => some n
  | some Json.null => some 0
  | some _ => none

/-- Decoding a JSON object field into a Go `string`: absent or `null`
leaves the zero value `""`. -/
def decodeStringField : Option Json → Option String
  | none => some ""
  | some (Json.str s) => some s
  | some Json.null => some ""
  | some _ => none

/-- Model of `json.Decode` / `json.Unmarshal` of a JSON value into an `Item`
(`var it Item; dec.Decode(&it)`): objects decode field-wise with zero
values for absent fields, `null` is a no-op on the zero value, anything
else fails. -/
def decodeItem : Json → Option Item
  | Json.obj fields => do
      let id ← decodeIntField (lookupField fields "id")
      let name ← decodeStringField (lookupField fields "name")
      pure ⟨id, name⟩
  | Json.null => some ⟨0, ""⟩
  | _ => none

/-- Model of `json.Marshal` applied to an `Item`. -/
def marshalItem (it : Item) : Json :=
  Json.obj [("id", Json.num it.ID), ("name", Json.str it.Name)]

/-- Go `EventType` constant `EventItemCreated` (events.go). -/
def EventItemCreated : String := "item.created"

/-- Go `EventType` constant `EventItemUpdated` (events.go). -/
def EventItemUpdated : String := "item.updated"

/-- Go `EventType` constant `EventItemDeleted` (events.go). -/
def EventItemDeleted : String := "item.deleted"

/-- Go `ItemEvent` (events.go): fields `Type EventType`, `Item Item`,
`Timestamp time.Time` with JSON keys `type`, `item`, `timestamp`.
`Type` is a Lean keyword, so the field is named `type'`; the timestamp is
modelled by its RFC3339 wire string. -/
structure ItemEvent where
  type' : String
  item : Item
  timestamp : String
deriving DecidableEq, Repr

/-- Model of `json.Marshal` applied to an `ItemEvent` (the wire envelope
published to the queue). -/
def marshalEvent (e : ItemEvent) : Json :=
  Json.obj [("type", Json.str e.type'),
            ("item", marshalItem e.item),
            ("timestamp", Json.str e.timestamp)]

/-- Decoding the `item` field of an event envelope: absent leaves the zero
`Item`, otherwise decodes as `decodeItem`. -/
def decodeItemField : Option Json → Option Item
  | none => some ⟨0, ""⟩
  | some j => decodeItem j

/-- Model of `json.Unmarshal` of a delivery body into an `ItemEvent`
(EventConsumer.Consume, events.go). -/
def unmarshalEvent : Json → Option ItemEvent
  | Json.obj fields => do
      let t ← decodeStringField (lookupField fields "type")
      let it ← decodeItemField (lookupField fields "item")
      let ts ← decodeStringField (lookupField fields "timestamp")
      pure ⟨t, it, ts⟩
  | Json.null => some ⟨"", ⟨0, ""⟩, ""⟩
  | _ => none

/-- Go `EventPublisher` (events.go): only the one fact the logic depends on
is kept — whether `ep.channel` is non-nil (the channel was established). -/
structure EventPublisher where
  channel : Bool

/-- Result of `EventPublisher.Publish`: `connectionError` models the
`channel is not initialized` error returned when `ep.channel == nil`;
otherwise the marshalled body is handed to the broker. -/
inductive PubResult where
  | connectionError
  | published (body : Json)
deriving Repr

/-- Method `EventPublisher.Publish` (events.go lines 76-103): fails with a
connection error if the channel was never established, otherwise marshals
the event and sends it. -/
def EventPublisher.Publish (ep : EventPublisher) (event : ItemEvent) : PubResult :=
  if ep.channel then PubResult.published (marshalEvent event) else PubResult.connectionError

/-- Abstract steps of a handler, used to record the temporal order of
lock acquisition, store mutation, publish, response write and unlock. -/
inductive Step where
  | lock
  | unlock
  | mutate
  | publish
  | respond
deriving DecidableEq, Repr

/-- HTTP response body: JSON on success paths, plain text via `http.Error`
on failure paths. -/
inductive Body where
  | json (j : Json)
  | text (s : String)
deriving Repr

/-- HTTP response: status code and body. -/
structure Response where
  status : Nat
  body : Body
deriving Repr

/-- The Go globals of main.go: `items []Item` (with its nil-ness tracked,
since a nil slice JSON-encodes as `null` while an empty non-nil slice
encodes as `[]`) and `nextID int`. -/
structure Store where
  items : List Item
  itemsNil : Bool
  nextID : Int
deriving Repr

/-- The state at process start: `var items []Item` (nil), `nextID int = 1`. -/
def initialStore : Store :=
  { items := [], itemsNil := true, nextID := 1 }

/-- Result of running one handler: the new store, the broker queue
contents, the HTTP response and the trace of abstract steps. -/
structure HandlerResult where
  store : Store
  broker : List Json
  resp : Response
  trace : List Step
deriving Repr

/-- The `if eventPublisher != nil { ... Publish ... }` block shared by the
three mutation handlers: no publisher means no call at all; with a
publisher the call is made (one `publish` step) and a returned error is
only logged, so the broker alone may change. -/
def doPublish (pub : Option EventPublisher) (event : ItemEvent) (broker : List Json) :
    List Json × List Step :=
  match pub with
  | none => (broker, [])
  | some ep =>
      match ep.Publish event with
      | PubResult.connectionError => (broker, [Step.publish])
      | PubResult.published body => (broker ++ [body], [Step.publish])

/-- The trace contributed by the publish block: one `publish` step exactly
when a publisher is configured. -/
def pubSteps (pub : Option EventPublisher) : List Step :=
  match pub with
  | none => []
  | some _ => [Step.publish]

/-- JSON encoding of the `items` slice (getItems, main.go): a nil slice
encodes as `null`, otherwise as an array. -/
def encodeItemsSlice (st : Store) : Json :=
  if st.itemsNil then Json.null else Json.arr (st.items.map marshalItem)

/-- Handler `getItems` (main.go): responds 200 with the JSON encoding of the
current `items` slice. -/
def getItems (st : Store) : Response :=
  { status := 200, body := Body.json (encodeItemsSlice st) }

/-- Handler `addItem` (main.go lines 32-59): decode the body (400 on failure),
then under the lock assign `newItem.ID = nextID`, increment `nextID`,
append, publish a created event (errors logged only), respond 201 with the
created item; the deferred unlock runs last. -/
def addItem (pub : Option EventPublisher) (now : String) (st : Store)
    (broker : List Json) (body : Json) : HandlerResult :=
  match decodeItem body with
  | none =>
      { store := st, broker := broker,
        resp := { status := 400, body := Body.text "Invalid input" },
        trace := [Step.respond] }
  | some decoded =>
      let newItem : Item := { decoded with ID := st.nextID }
      let st' : Store :=
        { items := st.items ++ [newItem], itemsNil := false, nextID := st.nextID + 1 }
      let pb := doPublish pub ⟨EventItemCreated, newItem, now⟩ broker
      { store := st', broker := pb.1,
        resp := { status := 201, body := Body.json (marshalItem newItem) },
        trace := [Step.lock, Step.mutate] ++ pb.2 ++ [Step.respond, Step.unlock] }

/-- The `for i, item := range items { if item.ID == upd.ID { items[i] = upd ... } }`
loop of `updateItem`: replaces the first record whose ID matches, or
returns `none` when no record matches. -/
def updateFirst (upd : Item) : List Item → Option (List Item)
  | [] => none
  | it :: rest =>
      if it.ID = upd.ID then some (upd :: rest)
      else (updateFirst upd rest).map (fun l => it :: l)

/-- Handler `updateItem` (main.go lines 61-91): decode the body (400 on failure),
then under the lock replace the first record matching the decoded ID and
respond 200 with the updated item (publishing an updated event, errors
logged only), or respond 404 when no record matches. -/
def updateItem (pub : Option EventPublisher) (now : String) (st : Store)
    (broker : List Json) (body : Json) : HandlerResult :=
  match decodeItem body with
  | none =>
      { store := st, broker := broker,
        resp := { status := 400, body := Body.text "Invalid input" },
        trace := [Step.respond] }
  | some updatedItem =>
      match updateFirst updatedItem st.items with
      | some items' =>
          let st' : Store := { st with items := items' }
          let pb := doPublish pub ⟨EventItemUpdated, updatedItem, now⟩ broker
          { store := st', broker := pb.1,
            resp := { status := 200, body := Body.json (marshalItem updatedItem) },
            trace := [Step.lock, Step.mutate] ++ pb.2 ++ [Step.respond, Step.unlock] }
      | none =>
          { store := st, broker := broker,
            resp := { status := 404, body := Body.text "Item not found" },
            trace := [Step.lock, Step.respond, Step.unlock] }

/-- The `for i, item := range items { if item.ID == target { items =
append(items[:i], items[i+1:]...) ... } }` loop of `deleteItem`: removes
the first record whose ID matches, returning it together with the
remaining records, or `none` when no record matches. -/
def removeFirst (target : Int) : List Item → Option (Item × List Item)
  | [] => none
  | it :: rest =>
      if it.ID = target then some (it, rest)
      else (removeFirst target rest).map (fun p => (p.1, it :: p.2))

/-- Handler `deleteItem` (main.go lines 93-123): decode the body (400 on failure),
then under the lock remove the first record matching the decoded ID and
respond 200 with the removed record (publishing a deleted event, errors
logged only), or respond 404 when no record matches.  A successful removal
leaves a non-nil slice. -/
def deleteItem (pub : Option EventPublisher) (now : String) (st : Store)
    (broker : List Json) (body : Json) : HandlerResult :=
  match decodeItem body with
  | none =>
      { store := st, broker := broker,
        resp := { status := 400, body := Body.text "Invalid input" },
        trace := [Step.respond] }
  | some itemToDelete =>
      match removeFirst itemToDelete.ID st.items with
      | some (removed, items') =>
          let st' : Store := { st with items := items', itemsNil := false }
          let pb := doPublish pub ⟨EventItemDeleted, removed, now⟩ broker
          { store := st', broker := pb.1,
            resp := { status := 200, body := Body.json (marshalItem removed) },
            trace := [Step.lock, Step.mutate] ++ pb.2 ++ [Step.respond, Step.unlock] }
      | none =>
          { store := st, broker := broker,
            resp := { status := 404, body := Body.text "Item not found" },
            trace := [Step.lock, Step.respond, Step.unlock] }

/-- One HTTP request against the store, by route and JSON body. -/
inductive Op where
  | get
  | add (body : Json)
  | update (body : Json)
  | delete (body : Json)

/-- Effect of one request on the store (the broker and responses do not
feed back into the store). -/
def stepOp (pub : Option EventPublisher) (now : String) (st : Store) : Op → Store
  | Op.get => st
  | Op.add body => (addItem pub now st [] body).store
  | Op.update body => (updateItem pub now st [] body).store
  | Op.delete body => (deleteItem pub now st [] body).store

/-- The store after a sequence of requests. -/
def run (pub : Option EventPublisher) (now : String) (st : Store) : List Op → Store
  | [] => st
  | op :: ops => run pub now (stepOp pub now st op) ops

/-- Fate of one delivery in the consumer loop. -/
inductive Outcome where
  | rejectNoRequeue
  | rejectRequeue
  | ack
deriving DecidableEq, Repr

/-- Body of the consumer loop of `EventConsumer.Consume` (events.go lines
180-197) for a single delivery: unmarshal failure rejects without requeue
(`d.Nack(false, false)`), a handler error rejects with requeue
(`d.Nack(false, true)`), handler success acknowledges (`d.Ack(false)`). -/
def processDelivery (handler : ItemEvent → Except String Unit) (body : Json) : Outcome :=
  match unmarshalEvent body with
  | none => Outcome.rejectNoRequeue
  | some event =>
      match handler event with
      | Except.error _ => Outcome.rejectRequeue
      | Except.ok _ => Outcome.ack

/-- Helper for `publishWhileLocked`: scans a trace keeping track of whether
the lock is currently held. -/
def publishWhileLockedGo (locked : Bool) : List Step → Bool
  | [] => false
  | Step.lock :: r => publishWhileLockedGo true r
  | Step.unlock :: r => publishWhileLockedGo false r
  | Step.publish :: r => locked || publishWhileLockedGo locked r
  | _ :: r => publishWhileLockedGo locked r

/-- Whether some publish step of the trace executes while the lock is
held. -/
def publishWhileLocked (tr : List Step) : Bool :=
  publishWhileLockedGo false tr

/-- The store invariant maintained by the handlers: item identifiers are
strictly increasing along the sequence and all below the `nextID`
counter. -/
def Store.WFids (st : Store) : Prop :=
  (st.items.map Item.ID).Pairwise (· < ·) ∧ ∀ it ∈ st.items, it.ID < st.nextID

theorem updateFirst_of_forall_ne (upd : Item) :
    ∀ l : List Item, (∀ y ∈ l, y.ID ≠ upd.ID) → updateFirst upd l = none := by
  intro l
  induction l with
  | nil => intro _; rfl
  | cons a rest ih =>
      intro h
      have ha : ¬ a.ID = upd.ID := h a (by simp)
      simp only [updateFirst, if_neg ha, ih (fun y hy => h y (by simp [hy])), Option.map_none']

theorem updateFirst_of_exists (upd : Item) :
    ∀ l : List Item, (∃ y ∈ l, y.ID = upd.ID) →
      ∃ pre x post, l = pre ++ x :: post ∧ x.ID = upd.ID ∧
        (∀ y ∈ pre, y.ID ≠ upd.ID) ∧
        updateFirst upd l = some (pre ++ upd :: post) := by
  intro l
  induction l with
  | nil => rintro ⟨y, hy, -⟩; simp at hy
  | cons a rest ih =>
      intro h
      by_cases ha : a.ID = upd.ID
      · exact ⟨[], a, rest, by simp, ha, by simp, by simp [updateFirst, ha]⟩
      · have h' : ∃ y ∈ rest, y.ID = upd.ID := by
          rcases h with ⟨y, hy, hid⟩
          rcases List.mem_cons.mp hy with h1 | h2
          · exact absurd (h1 ▸ hid) ha
          · exact ⟨y, h2, hid⟩
        rcases ih h' with ⟨pre, x, post, hl, hx, hpre, hupd⟩
        refine ⟨a :: pre, x, post, by simp [hl], hx, ?_, ?_⟩
        · intro y hy
          rcases List.mem_cons.mp hy with h1 | h2
          · exact h1 ▸ ha
          · exact hpre y h2
        · simp [updateFirst, ha, hupd]

theorem updateFirst_map_id (upd : Item) :
    ∀ l l' : List Item, updateFirst upd l = some l' →
      l'.map Item.ID = l.map Item.ID := by
  intro l
  induction l with
  | nil => intro l' h; simp [updateFirst] at h
  | cons a rest ih =>
      intro l' h
      by_cases ha : a.ID = upd.ID
      · simp only [updateFirst, if_pos ha, Option.some.injEq] at h
        subst h
        simp [ha]
      · simp only [updateFirst, if_neg ha, Option.map_eq_some'] at h
        rcases h with ⟨tl, htl, rfl⟩
        simp [ih tl htl]

theorem removeFirst_of_forall_ne (t : Int) :
    ∀ l : List Item, (∀ y ∈ l, y.ID ≠ t) → removeFirst t l = none := by
  intro l
  induction l with
  | nil => intro _; rfl
  | cons a rest ih =>
      intro h
      have ha : ¬ a.ID = t := h a (by simp)
      simp only [removeFirst, if_neg ha, ih (fun y hy => h y (by simp [hy])), Option.map_none']

theorem removeFirst_of_exists (t : Int) :
    ∀ l : List Item, (∃ y ∈ l, y.ID = t) →
      ∃ pre r post, l = pre ++ r :: post ∧ r.ID = t ∧
        (∀ y ∈ pre, y.ID ≠ t) ∧
        removeFirst t l = some (r, pre ++ post) := by
  intro l
  induction l with
  | nil => rintro ⟨y, hy, -⟩; simp at hy
  | cons a rest ih =>
      intro h
      by_cases ha : a.ID = t
      · exact ⟨[], a, rest, by simp, ha, by simp, by simp [removeFirst, ha]⟩
      · have h' : ∃ y ∈ rest, y.ID = t := by
          rcases h with ⟨y, hy, hid⟩
          rcases List.mem_cons.mp hy with h1 | h2
          · exact absurd (h1 ▸ hid) ha
          · exact ⟨y, h2, hid⟩
        rcases ih h' with ⟨pre, r, post, hl, hr, hpre, hrem⟩
        refine ⟨a :: pre, r, post, by simp [hl], hr, ?_, ?_⟩
        · intro y hy
          rcases List.mem_cons.mp hy with h1 | h2
          · exact h1 ▸ ha
          · exact hpre y h2
        · simp [removeFirst, ha, hrem]

theorem removeFirst_spec (t : Int) :
    ∀ l r l', removeFirst t l = some (r, l') →
      List.Sublist l' l ∧ r ∈ l ∧ r.ID = t := by
  intro l
  induction l with
  | nil => intro r l' h; simp [removeFirst] at h
  | cons a rest ih =>
      intro r l' h
      by_cases ha : a.ID = t
      · simp only [removeFirst, if_pos ha, Option.some.injEq, Prod.mk.injEq] at h
        obtain ⟨rfl, rfl⟩ := h
        exact ⟨List.Sublist.cons _ (List.Sublist.refl _), by simp, ha⟩
      · simp only [removeFirst, if_neg ha, Option.map_eq_some'] at h
        rcases h with ⟨⟨r', tl⟩, hrec, heq⟩
        obtain ⟨rfl, rfl⟩ : r' = r ∧ a :: tl = l' := by
          constructor <;> simp_all
        rcases ih r' tl hrec with ⟨hsub, hmem, hid⟩
        exact ⟨List.Sublist.cons₂ _ hsub, by simp [hmem], hid⟩

theorem wfids_initial : initialStore.WFids := by
  constructor
  · simp [initialStore]
  · intro it hit
    simp [initialStore] at hit

theorem wfids_step (pub : Option EventPublisher) (now : String) (op : Op)
    {st : Store} (h : st.WFids) : (stepOp pub now st op).WFids := by
  rcases h with ⟨hpair, hbound⟩
  cases op with
  | get => exact ⟨hpair, hbound⟩
  | add body =>
      cases hdec : decodeItem body with
      | none => simpa [stepOp, addItem, hdec, Store.WFids] using ⟨hpair, hbound⟩
      | some it =>
          simp only [stepOp, addItem, hdec, Store.WFids]
          constructor
          · rw [List.map_append, List.pairwise_append]
            refine ⟨hpair, by simp, ?_⟩
            intro a ha b hb
            rcases List.mem_map.mp ha with ⟨y, hy, rfl⟩
            simp only [List.map_cons, List.map_nil, List.mem_singleton] at hb
            subst hb
            exact hbound y hy
          · intro it' hit'
            rcases List.mem_append.mp hit' with h1 | h2
            · exact lt_trans (hbound it' h1) (by omega)
            · simp only [List.mem_singleton] at h2
              subst h2
              simp
  | update body =>
      cases hdec : decodeItem body with
      | none => simpa [stepOp, updateItem, hdec, Store.WFids] using ⟨hpair, hbound⟩
      | some upd =>
          cases hupd : updateFirst upd st.items with
          | none => simpa [stepOp, updateItem, hdec, hupd, Store.WFids] using ⟨hpair, hbound⟩
          | some l' =>
              simp only [stepOp, updateItem, hdec, hupd, Store.WFids]
              have hmap := updateFirst_map_id upd st.items l' hupd
              constructor
              · rw [hmap]; exact hpair
              · intro it' hit'
                have : it'.ID ∈ l'.map Item.ID := List.mem_map_of_mem _ hit'
                rw [hmap] at this
                rcases List.mem_map.mp this with ⟨y, hy, hyid⟩
                rw [← hyid]
                exact hbound y hy
  | delete body =>
      cases hdec : decodeItem body with
      | none => simpa [stepOp, deleteItem, hdec, Store.WFids] using ⟨hpair, hbound⟩
      | some tgt =>
          cases hrem : removeFirst tgt.ID st.items with
          | none => simpa [stepOp, deleteItem, hdec, hrem, Store.WFids] using ⟨hpair, hbound⟩
          | some p =>
              rcases p with ⟨r, l'⟩
              rcases removeFirst_spec tgt.ID st.items r l' hrem with ⟨hsub, -, -⟩
              simp only [stepOp, deleteItem, hdec, hrem, Store.WFids]
              constructor
              · exact List.Pairwise.sublist (List.Sublist.map Item.ID hsub) hpair
              · intro it' hit'
                exact hbound it' (hsub.subset hit')

theorem nextID_le_step (pub : Option EventPublisher) (now : String) (op : Op) (st : Store) :
    st.nextID ≤ (stepOp pub now st op).nextID := by
  cases op with
  | get => exact le_refl _
  | add body =>
      cases hdec : decodeItem body with
      | none => simp [stepOp, addItem, hdec]
      | some it => simp [stepOp, addItem, hdec]
  | update body =>
      cases hdec : decodeItem body with
      | none => simp [stepOp, updateItem, hdec]
      | some upd =>
          cases hupd : updateFirst upd st.items with
          | none => simp [stepOp, updateItem, hdec, hupd]
          | some l' => simp [stepOp, updateItem, hdec, hupd]
  | delete body =>
      cases hdec : decodeItem body with
      | none => simp [stepOp, deleteItem, hdec]
      | some tgt =>
          cases hrem : removeFirst tgt.ID st.items with
          | none => simp [stepOp, deleteItem, hdec, hrem]
          | some p => simp [stepOp, deleteItem, hdec, hrem]

theorem nextID_le_run (pub : Option EventPublisher) (now : String) :
    ∀ (ops : List Op) (st : Store), st.nextID ≤ (run pub now st ops).nextID := by
  intro ops
  induction ops with
  | nil => intro st; exact le_refl _
  | cons op rest ih =>
      intro st
      exact le_trans (nextID_le_step pub now op st) (ih (stepOp pub now st op))

theorem wfids_run (pub : Option EventPublisher) (now : String) :
    ∀ (ops : List Op) (st : Store), st.WFids → (run pub now st ops).WFids := by
  intro ops
  induction ops with
  | nil => intro st h; exact h
  | cons op rest ih =>
      intro st h
      exact ih (stepOp pub now st op) (wfids_step pub now op h)

theorem itemsNil_false_step (pub : Option EventPublisher) (now : String) (op : Op)
    {st : Store} (h : st.itemsNil = false) : (stepOp pub now st op).itemsNil = false := by
  cases op with
  | get => exact h
  | add body =>
      cases hdec : decodeItem body with
      | none => simpa [stepOp, addItem, hdec]
      | some it => simp [stepOp, addItem, hdec]
  | update body =>
      cases hdec : decodeItem body with
      | none => simpa [stepOp, updateItem, hdec]
      | some upd =>
          cases hupd : updateFirst upd st.items with
          | none => simpa [stepOp, updateItem, hdec, hupd]
          | some l' => simpa [stepOp, updateItem, hdec, hupd]
  | delete body =>
      cases hdec : decodeItem body with
      | none => simpa [stepOp, deleteItem, hdec]
      | some tgt =>
          cases hrem : removeFirst tgt.ID st.items with
          | none => simpa [stepOp, deleteItem, hdec, hrem]
          | some p => simp [stepOp, deleteItem, hdec, hrem]

theorem itemsNil_false_run (pub : Option EventPublisher) (now : String) :
    ∀ (ops : List Op) (st : Store), st.itemsNil = false →
      (run pub now st ops).itemsNil = false := by
  intro ops
  induction ops with
  | nil => intro st h; exact h
  | cons op rest ih =>
      intro st h
      exact ih (stepOp pub now st op) (itemsNil_false_step pub now op h)

theorem run_append (pub : Option EventPublisher) (now : String) :
    ∀ (ops₁ ops₂ : List Op) (st : Store),
      run pub now st (ops₁ ++ ops₂) = run pub now (run pub now st ops₁) ops₂ := by
  intro ops₁
  induction ops₁ with
  | nil => intro ops₂ st; rfl
  | cons op rest ih =>
      intro ops₂ st
      simp only [List.cons_append, run]
      exact ih ops₂ (stepOp pub now st op)

theorem range_shift (m : Int) (n : Nat) :
    m :: (List.range n).map (fun k : Nat => m + 1 + (k : Int)) =
      (List.range (n + 1)).map (fun k : Nat => m + (k : Int)) := by
  rw [List.range_succ_eq_map, List.map_cons, List.map_map]
  refine List.cons_eq_cons.mpr ⟨by norm_num, ?_⟩
  apply List.map_congr_left
  intro a _
  show m + 1 + (a : Int) = m + ((Nat.succ a : Nat) : Int)
  push_cast
  ring

theorem run_adds_ids (pub : Option EventPublisher) (now : String) :
    ∀ (bodies : List Json) (st : Store), (∀ b ∈ bodies, (decodeItem b).isSome) →
      (run pub now st (bodies.map Op.add)).items.map Item.ID
          = st.items.map Item.ID ++ (List.range bodies.length).map (fun k : Nat => st.nextID + (k : Int))
        ∧ (run pub now st (bodies.map Op.add)).nextID = st.nextID + bodies.length := by
  intro bodies
  induction bodies with
  | nil => intro st _; simp [run]
  | cons b rest ih =>
      intro st h
      obtain ⟨it, hdec⟩ := Option.isSome_iff_exists.mp (h b (by simp))
      have hmap : (b :: rest).map Op.add = Op.add b :: rest.map Op.add := rfl
      rw [hmap]
      simp only [run]
      have hstep : stepOp pub now st (Op.add b) =
          { items := st.items ++ [{ it with ID := st.nextID }], itemsNil := false,
            nextID := st.nextID + 1 } := by
        simp [stepOp, addItem, hdec]
      rw [hstep]
      rcases ih _ (fun b' hb' => h b' (by simp [hb'])) with ⟨h1, h2⟩
      constructor
      · rw [h1]
        simp only [List.map_append, List.map_cons, List.map_nil, List.length_cons]
        rw [List.append_assoc]
        congr 1
        simpa using range_shift st.nextID rest.length
      · rw [h2]
        simp only [List.length_cons]
        push_cast
        ring

theorem doPublish_snd (pub : Option EventPublisher) (event : ItemEvent) (broker : List Json) :
    (doPublish pub event broker).2 = pubSteps pub := by
  cases pub with
  | none => rfl
  | some ep => cases hep : ep.Publish event <;> simp [doPublish, hep, pubSteps]

/-- Claim C7: serializing any event (any type, item id, item name and timestamp)
to the wire envelope and deserializing it back reproduces the event — in
particular the same type, item id and item name. -/
theorem event_roundtrip (e : ItemEvent) :
    unmarshalEvent (marshalEvent e) = some e := by
  rcases e with ⟨t, ⟨id, name⟩, ts⟩
  rfl

/-- Claim C5: each delivery in the consumer loop meets exactly one of three
fates: an undecodable envelope is rejected without requeue, a decodable one
whose handler errors is rejected with requeue, and a decodable one whose
handler succeeds is acknowledged. -/
theorem consume_delivery_outcomes (handler : ItemEvent → Except String Unit) (body : Json) :
    (unmarshalEvent body = none →
      processDelivery handler body = Outcome.rejectNoRequeue)
    ∧ (∀ event msg, unmarshalEvent body = some event → handler event = Except.error msg →
        processDelivery handler body = Outcome.rejectRequeue)
    ∧ (∀ event, unmarshalEvent body = some event → handler event = Except.ok () →
        processDelivery handler body = Outcome.ack)
    ∧ (processDelivery handler body = Outcome.rejectNoRequeue
        ∨ processDelivery handler body = Outcome.rejectRequeue
        ∨ processDelivery handler body = Outcome.ack) := by
  refine ⟨?_, ?_, ?_, ?_⟩
  · intro h
    simp [processDelivery, h]
  · intro event msg h1 h2
    simp [processDelivery, h1, h2]
  · intro event h1 h2
    simp [processDelivery, h1, h2]
  · cases h : processDelivery handler body <;> simp

/-- Witness for `consume_delivery_outcomes` at concrete deliveries: a
non-envelope body, a handler that errors, and a handler that succeeds. -/
theorem consume_delivery_outcomes_witness :
    processDelivery (fun _ => Except.ok ()) (Json.str "garbage") = Outcome.rejectNoRequeue
    ∧ processDelivery (fun _ => Except.error "handler failure")
        (marshalEvent ⟨EventItemCreated, ⟨1, "A"⟩, "2026-01-01T00:00:00Z"⟩)
        = Outcome.rejectRequeue
    ∧ processDelivery (fun _ => Except.ok ())
        (marshalEvent ⟨EventItemCreated, ⟨1, "A"⟩, "2026-01-01T00:00:00Z"⟩)
        = Outcome.ack := by
  refine ⟨?_, ?_, ?_⟩
  · exact (consume_delivery_outcomes _ _).1 (by rfl)
  · exact (consume_delivery_outcomes _ _).2.1
      ⟨EventItemCreated, ⟨1, "A"⟩, "2026-01-01T00:00:00Z"⟩ "handler failure" (by rfl) rfl
  · exact (consume_delivery_outcomes _ _).2.2.1
      ⟨EventItemCreated, ⟨1, "A"⟩, "2026-01-01T00:00:00Z"⟩ (by rfl) rfl

/-- Claim C4: publishing on a publisher whose channel was never established
returns the connection error, and for every mutation request the store and
the HTTP response are identical whether the configured publisher fails
(channel never established) or succeeds — the failure is only logged. -/
theorem publish_failure_swallowed :
    (∀ event : ItemEvent,
      (EventPublisher.mk false).Publish event = PubResult.connectionError)
    ∧ ∀ (now : String) (st : Store) (broker broker' : List Json) (body : Json),
        ((addItem (some ⟨false⟩) now st broker body).store
            = (addItem (some ⟨true⟩) now st broker' body).store
          ∧ (addItem (some ⟨false⟩) now st broker body).resp
            = (addItem (some ⟨true⟩) now st broker' body).resp)
        ∧ ((updateItem (some ⟨false⟩) now st broker body).store
            = (updateItem (some ⟨true⟩) now st broker' body).store
          ∧ (updateItem (some ⟨false⟩) now st broker body).resp
            = (updateItem (some ⟨true⟩) now st broker' body).resp)
        ∧ ((deleteItem (some ⟨false⟩) now st broker body).store
            = (deleteItem (some ⟨true⟩) now st broker' body).store
          ∧ (deleteItem (some ⟨false⟩) now st broker body).resp
            = (deleteItem (some ⟨true⟩) now st broker' body).resp) := by
  constructor
  · intro event
    rfl
  · intro now st broker broker' body
    refine ⟨⟨?_, ?_⟩, ⟨?_, ?_⟩, ⟨?_, ?_⟩⟩ <;>
      cases hdec : decodeItem body <;>
        simp [addItem, updateItem, deleteItem, hdec] <;>
          first
          | (cases hupd : updateFirst _ st.items <;> simp [hupd])
          | (cases hrem : removeFirst _ st.items <;> simp [hrem])

/-- Claim C1: an update whose decoded id matches an existing item replaces
exactly the first matching record — every record before and after it, the
sequence length and the id counter are unchanged — and responds 200 with
the updated item; an update whose id matches nothing leaves the store
unchanged and reports 404. -/
theorem updateItem_spec (pub : Option EventPublisher) (now : String) (st : Store)
    (broker : List Json) (body : Json) (upd : Item)
    (hdec : decodeItem body = some upd) :
    ((∃ y ∈ st.items, y.ID = upd.ID) →
      ∃ pre x post, st.items = pre ++ x :: post ∧ x.ID = upd.ID ∧
        (∀ y ∈ pre, y.ID ≠ upd.ID) ∧
        (updateItem pub now st broker body).store.items = pre ++ upd :: post ∧
        (updateItem pub now st broker body).store.items.length = st.items.length ∧
        (updateItem pub now st broker body).store.nextID = st.nextID ∧
        (updateItem pub now st broker body).resp
          = { status := 200, body := Body.json (marshalItem upd) })
    ∧ ((∀ y ∈ st.items, y.ID ≠ upd.ID) →
        (updateItem pub now st broker body).store = st ∧
        (updateItem pub now st broker body).resp
          = { status := 404, body := Body.text "Item not found" }) := by
  constructor
  · intro hex
    rcases updateFirst_of_exists upd st.items hex with ⟨pre, x, post, hl, hx, hpre, hupd⟩
    have hitems : (updateItem pub now st broker body).store.items = pre ++ upd :: post := by
      simp [updateItem, hdec, hupd]
    refine ⟨pre, x, post, hl, hx, hpre, hitems, ?_, ?_, ?_⟩
    · rw [hitems, hl]
      simp
    · simp [updateItem, hdec, hupd]
    · simp [updateItem, hdec, hupd]
  · intro hnone
    have h := updateFirst_of_forall_ne upd st.items hnone
    constructor <;> simp [updateItem, hdec, h]

/-- Witness for `updateItem_spec`: updating id 1 in a two-item store
replaces only that record and responds 200 with the updated item. -/
theorem updateItem_spec_witness :
    (updateItem none "2026-01-01T00:00:00Z" ⟨[⟨1, "A"⟩, ⟨2, "C"⟩], false, 3⟩ []
        (Json.obj [("id", Json.num 1), ("name", Json.str "B")])).resp
      = { status := 200, body := Body.json (marshalItem ⟨1, "B"⟩) } := by
  rcases (updateItem_spec none "2026-01-01T00:00:00Z" ⟨[⟨1, "A"⟩, ⟨2, "C"⟩], false, 3⟩ []
      (Json.obj [("id", Json.num 1), ("name", Json.str "B")]) ⟨1, "B"⟩ (by rfl)).1
      ⟨⟨1, "A"⟩, by simp, rfl⟩ with ⟨pre, x, post, -, -, -, -, -, -, hresp⟩
  exact hresp

/-- Claim C2: a delete whose decoded id matches removes exactly the first
matching record, responds 200 with the removed record, and shrinks the
sequence by exactly one; with pairwise-distinct ids (which every reachable
store has) an immediately repeated delete of the same id reports 404 and
changes nothing, as does any delete whose id matches nothing. -/
theorem deleteItem_spec (pub : Option EventPublisher) (now : String) (st : Store)
    (broker broker' : List Json) (body : Json) (tgt : Item)
    (hdistinct : st.items.Pairwise (fun a b => a.ID ≠ b.ID))
    (hdec : decodeItem body = some tgt) :
    ((∃ y ∈ st.items, y.ID = tgt.ID) →
      ∃ pre r post, st.items = pre ++ r :: post ∧ r.ID = tgt.ID ∧
        (∀ y ∈ pre, y.ID ≠ tgt.ID) ∧
        (deleteItem pub now st broker body).store.items = pre ++ post ∧
        (deleteItem pub now st broker body).store.items.length + 1 = st.items.length ∧
        (deleteItem pub now st broker body).resp
          = { status := 200, body := Body.json (marshalItem r) } ∧
        (deleteItem pub now (deleteItem pub now st broker body).store broker' body).store
          = (deleteItem pub now st broker body).store ∧
        (deleteItem pub now (deleteItem pub now st broker body).store broker' body).resp
          = { status := 404, body := Body.text "Item not found" })
    ∧ ((∀ y ∈ st.items, y.ID ≠ tgt.ID) →
        (deleteItem pub now st broker body).store = st ∧
        (deleteItem pub now st broker body).resp
          = { status := 404, body := Body.text "Item not found" }) := by
  constructor
  · intro hex
    rcases removeFirst_of_exists tgt.ID st.items hex with ⟨pre, r, post, hl, hr, hpre, hrem⟩
    have hpost : ∀ y ∈ post, y.ID ≠ tgt.ID := by
      have hpw : (pre ++ r :: post).Pairwise (fun a b => a.ID ≠ b.ID) := hl ▸ hdistinct
      have hrpost := (List.pairwise_cons.mp (List.pairwise_append.mp hpw).2.1).1
      intro y hy
      rw [← hr]
      exact fun hcon => hrpost y hy hcon.symm
    have hnone2 : removeFirst tgt.ID (pre ++ post) = none := by
      apply removeFirst_of_forall_ne
      intro y hy
      rcases List.mem_append.mp hy with h1 | h2
      · exact hpre y h1
      · exact hpost y h2
    have hstore : (deleteItem pub now st broker body).store
        = { st with items := pre ++ post, itemsNil := false } := by
      simp [deleteItem, hdec, hrem]
    have hitems : (deleteItem pub now st broker body).store.items = pre ++ post := by
      rw [hstore]
    refine ⟨pre, r, post, hl, hr, hpre, hitems, ?_, ?_, ?_, ?_⟩
    · rw [hitems, hl]
      simp
      omega
    · simp [deleteItem, hdec, hrem]
    · rw [hstore]
      simp [deleteItem, hdec, hnone2]
    · rw [hstore]
      simp [deleteItem, hdec, hnone2]
  · intro hnone
    have h := removeFirst_of_forall_ne tgt.ID st.items hnone
    constructor <;> simp [deleteItem, hdec, h]

/-- Witness for `deleteItem_spec`: deleting id 1 from a two-item store
responds 200 with the removed record and a repeat delete reports 404. -/
theorem deleteItem_spec_witness :
    (deleteItem none "2026-01-01T00:00:00Z" ⟨[⟨1, "A"⟩, ⟨2, "C"⟩], false, 3⟩ []
        (Json.obj [("id", Json.num 1)])).resp
      = { status := 200, body := Body.json (marshalItem ⟨1, "A"⟩) } := by
  rcases (deleteItem_spec none "2026-01-01T00:00:00Z" ⟨[⟨1, "A"⟩, ⟨2, "C"⟩], false, 3⟩ [] []
      (Json.obj [("id", Json.num 1)]) ⟨1, ""⟩ (by simp) (by rfl)).1
      ⟨⟨1, "A"⟩, by simp, rfl⟩ with ⟨pre, r, post, hl, hr, hpre, -, -, hresp, -, -⟩
  obtain ⟨rfl, rfl⟩ : pre = [] ∧ r = ⟨1, "A"⟩ := by
    cases pre with
    | nil =>
        simp only [List.nil_append, List.cons.injEq] at hl
        exact ⟨rfl, hl.1.symm⟩
    | cons a rest =>
        exfalso
        simp only [List.cons_append, List.cons.injEq] at hl
        exact hpre a (by simp) (by rw [← hl.1])
  exact hresp

/-- Claim C9: for every well-formed create body, the client-supplied id is
ignored — the created item's id is the store's `nextID` counter — the
stored name is exactly the decoded name (empty when the `name` field is
absent), and the response is 201 with the created item. -/
theorem addItem_ignores_client_id (pub : Option EventPublisher) (now : String) (st : Store)
    (broker : List Json) (fields : List (String × Json)) (decoded : Item)
    (hdec : decodeItem (Json.obj fields) = some decoded) :
    (addItem pub now st broker (Json.obj fields)).store.items
        = st.items ++ [{ ID := st.nextID, Name := decoded.Name }]
    ∧ (addItem pub now st broker (Json.obj fields)).resp
        = { status := 201, body := Body.json (marshalItem ⟨st.nextID, decoded.Name⟩) }
    ∧ (lookupField fields "name" = none → decoded.Name = "") := by
  refine ⟨?_, ?_, ?_⟩
  · simp [addItem, hdec]
  · simp [addItem, hdec, marshalItem]
  · intro habs
    cases hid : decodeIntField (lookupField fields "id") with
    | none => simp [decodeItem, hid] at hdec
    | some n =>
        simp [decodeItem, hid, habs, decodeStringField] at hdec
        rw [← hdec]

/-- Witness for `addItem_ignores_client_id`: the client sends id 99 but the
created item gets id 1 from the fresh store's counter. -/
theorem addItem_ignores_client_id_witness :
    (addItem none "2026-01-01T00:00:00Z" initialStore []
        (Json.obj [("id", Json.num 99), ("name", Json.str "A")])).store.items
      = [{ ID := 1, Name := "A" }] := by
  have h := (addItem_ignores_client_id none "2026-01-01T00:00:00Z" initialStore []
      [("id", Json.num 99), ("name", Json.str "A")] ⟨99, "A"⟩ (by rfl)).1
  simpa [initialStore] using h

/-- Claim C8: every store reachable from the initial state by any sequence of
requests has its item ids strictly increasing along the sequence (hence
pairwise distinct), each strictly below the `nextID` counter. -/
theorem reachable_store_wfids (pub : Option EventPublisher) (now : String) (ops : List Op) :
    ((run pub now initialStore ops).items.map Item.ID).Pairwise (· < ·)
    ∧ ∀ it ∈ (run pub now initialStore ops).items,
        it.ID < (run pub now initialStore ops).nextID :=
  wfids_run pub now ops initialStore wfids_initial

/-- Claim C3: consecutive creates from the initial store are assigned the
strictly increasing identifiers 1, 2, 3, …, and an identifier removed by a
successful delete is strictly below every identifier a later create
assigns, so deleted ids are never reused. -/
theorem create_ids_increasing_no_reuse (pub : Option EventPublisher) (now : String) :
    (∀ bodies : List Json, (∀ b ∈ bodies, (decodeItem b).isSome) →
      (run pub now initialStore (bodies.map Op.add)).items.map Item.ID
        = (List.range bodies.length).map (fun k : Nat => (1 : Int) + k))
    ∧ ∀ (ops₁ : List Op) (body : Json) (tgt r : Item) (rest : List Item)
        (ops₂ : List Op) (body₂ : Json) (c : Item) (broker : List Json),
        decodeItem body = some tgt →
        removeFirst tgt.ID (run pub now initialStore ops₁).items = some (r, rest) →
        decodeItem body₂ = some c →
        (addItem pub now
              (run pub now (stepOp pub now (run pub now initialStore ops₁) (Op.delete body)) ops₂)
              broker body₂).store.items
            = (run pub now (stepOp pub now (run pub now initialStore ops₁) (Op.delete body)) ops₂).items
              ++ [{ ID := (run pub now (stepOp pub now (run pub now initialStore ops₁)
                      (Op.delete body)) ops₂).nextID,
                    Name := c.Name }]
          ∧ r.ID < (run pub now (stepOp pub now (run pub now initialStore ops₁)
                      (Op.delete body)) ops₂).nextID := by
  constructor
  · intro bodies h
    have := (run_adds_ids pub now bodies initialStore h).1
    simpa [initialStore] using this
  · intro ops₁ body tgt r rest ops₂ body₂ c broker hdec hrem hdec₂
    constructor
    · simp [addItem, hdec₂]
    · have hwf := wfids_run pub now ops₁ initialStore wfids_initial
      have hmem := (removeFirst_spec tgt.ID (run pub now initialStore ops₁).items r rest hrem).2.1
      have hbound : r.ID < (run pub now initialStore ops₁).nextID := hwf.2 r hmem
      have hdel : (stepOp pub now (run pub now initialStore ops₁) (Op.delete body)).nextID
          = (run pub now initialStore ops₁).nextID := by
        simp [stepOp, deleteItem, hdec, hrem]
      have hmono := nextID_le_run pub now ops₂
        (stepOp pub now (run pub now initialStore ops₁) (Op.delete body))
      rw [hdel] at hmono
      exact lt_of_lt_of_le hbound hmono

/-- Witness for `create_ids_increasing_no_reuse`: two creates get ids 1 and
2; after creating id 1 and deleting it, the next create is assigned id 2,
not the deleted id 1. -/
theorem create_ids_increasing_no_reuse_witness :
    (run none "2026-01-01T00:00:00Z" initialStore
        ([Json.obj [("name", Json.str "A")], Json.obj [("name", Json.str "B")]].map Op.add)).items.map Item.ID
      = [(1 : Int), 2]
    ∧ (1 : Int) < (run none "2026-01-01T00:00:00Z"
        (stepOp none "2026-01-01T00:00:00Z"
          (run none "2026-01-01T00:00:00Z" initialStore [Op.add (Json.obj [("name", Json.str "A")])])
          (Op.delete (Json.obj [("id", Json.num 1)]))) []).nextID := by
  constructor
  · have h := (create_ids_increasing_no_reuse none "2026-01-01T00:00:00Z").1
      [Json.obj [("name", Json.str "A")], Json.obj [("name", Json.str "B")]] (by decide)
    simpa using h
  · have h := ((create_ids_increasing_no_reuse none "2026-01-01T00:00:00Z").2
      [Op.add (Json.obj [("name", Json.str "A")])] (Json.obj [("id", Json.num 1)])
      ⟨1, ""⟩ ⟨1, "A"⟩ [] [] (Json.obj [("name", Json.str "C")]) ⟨0, "C"⟩ []
      (by rfl) (by rfl) (by rfl)).2
    simpa using h

/-- Claim C10: a freshly started server answers `GET /items` with JSON `null`
(the nil slice), while any state reached after a successful create whose
item sequence is empty again (all items deleted) answers with the empty
array `[]`. -/
theorem getItems_nil_vs_empty (pub : Option EventPublisher) (now : String) :
    getItems initialStore = { status := 200, body := Body.json Json.null }
    ∧ ∀ (ops₁ ops₂ : List Op) (body : Json),
        (decodeItem body).isSome →
        (run pub now initialStore (ops₁ ++ Op.add body :: ops₂)).items = [] →
        getItems (run pub now initialStore (ops₁ ++ Op.add body :: ops₂))
          = { status := 200, body := Body.json (Json.arr []) } := by
  constructor
  · rfl
  · intro ops₁ ops₂ body hdec hempty
    have hnil : (run pub now initialStore (ops₁ ++ Op.add body :: ops₂)).itemsNil = false := by
      rw [run_append]
      show (run pub now
          (stepOp pub now (run pub now initialStore ops₁) (Op.add body)) ops₂).itemsNil = false
      apply itemsNil_false_run
      obtain ⟨it, hit⟩ := Option.isSome_iff_exists.mp hdec
      simp [stepOp, addItem, hit]
    simp [getItems, encodeItemsSlice, hnil, hempty]

/-- Witness for `getItems_nil_vs_empty`: the fresh store encodes as `null`;
after one create and one delete of id 1 the empty store encodes as `[]`. -/
theorem getItems_nil_vs_empty_witness :
    getItems (run none "2026-01-01T00:00:00Z" initialStore
        ([] ++ Op.add (Json.obj [("name", Json.str "A")])
          :: [Op.delete (Json.obj [("id", Json.num 1)])]))
      = { status := 200, body := Body.json (Json.arr []) } :=
  (getItems_nil_vs_empty none "2026-01-01T00:00:00Z").2
    [] [Op.delete (Json.obj [("id", Json.num 1)])]
    (Json.obj [("name", Json.str "A")]) (by rfl) (by rfl)

/-- Claim C6 counterexample: on a concrete create request with a configured
publisher, the recorded step order is lock, mutate, publish, respond,
unlock — the publish executes strictly between lock and unlock because the
Go handlers release the mutex with `defer`, refuting the claimed
lock → mutate → unlock → publish → respond order. -/
theorem publish_under_lock_counterexample :
    (addItem (some ⟨true⟩) "2026-01-01T00:00:00Z" initialStore []
        (Json.obj [("name", Json.str "A")])).trace
      = [Step.lock, Step.mutate, Step.publish, Step.respond, Step.unlock]
    ∧ publishWhileLocked
        (addItem (some ⟨true⟩) "2026-01-01T00:00:00Z" initialStore []
          (Json.obj [("name", Json.str "A")])).trace = true := by
  constructor
  · rfl
  · rfl

/-- Claim C6 amended: for every mutation request that decodes, the handler's
step order is lock, mutate, then — when a publisher is configured (and, for
update/delete, the target id exists) — publish, then the response write,
and the deferred unlock last; in particular the publish executes while the
store's lock is held. -/
theorem mutation_trace_order (pub : Option EventPublisher) (now : String) (st : Store)
    (broker : List Json) (body : Json) (decoded : Item)
    (hdec : decodeItem body = some decoded) :
    (addItem pub now st broker body).trace
        = [Step.lock, Step.mutate] ++ pubSteps pub ++ [Step.respond, Step.unlock]
    ∧ ((∃ y ∈ st.items, y.ID = decoded.ID) →
        (updateItem pub now st broker body).trace
          = [Step.lock, Step.mutate] ++ pubSteps pub ++ [Step.respond, Step.unlock])
    ∧ ((∃ y ∈ st.items, y.ID = decoded.ID) →
        (deleteItem pub now st broker body).trace
          = [Step.lock, Step.mutate] ++ pubSteps pub ++ [Step.respond, Step.unlock])
    ∧ (pub ≠ none →
        publishWhileLocked (addItem pub now st broker body).trace = true) := by
  refine ⟨?_, ?_, ?_, ?_⟩
  · simp [addItem, hdec, doPublish_snd]
  · intro hex
    rcases updateFirst_of_exists decoded st.items hex with ⟨pre, x, post, -, -, -, hupd⟩
    simp [updateItem, hdec, hupd, doPublish_snd]
  · intro hex
    rcases removeFirst_of_exists decoded.ID st.items hex with ⟨pre, r, post, -, -, -, hrem⟩
    simp [deleteItem, hdec, hrem, doPublish_snd]
  · intro hpub
    match pub with
    | none => exact absurd rfl hpub
    | some ep =>
        have htrace : (addItem (some ep) now st broker body).trace
            = [Step.lock, Step.mutate, Step.publish, Step.respond, Step.unlock] := by
          simp [addItem, hdec, doPublish_snd, pubSteps]
        rw [htrace]
        rfl

/-- Witness for `mutation_trace_order`: with a working publisher and a
one-item store, all three mutation handlers publish between lock and
unlock. -/
theorem mutation_trace_order_witness :
    (updateItem (some ⟨true⟩) "2026-01-01T00:00:00Z" ⟨[⟨1, "A"⟩], false, 2⟩ []
        (Json.obj [("id", Json.num 1), ("name", Json.str "B")])).trace
      = [Step.lock, Step.mutate] ++ pubSteps (some ⟨true⟩) ++ [Step.respond, Step.unlock] :=
  (mutation_trace_order (some ⟨true⟩) "2026-01-01T00:00:00Z" ⟨[⟨1, "A"⟩], false, 2⟩ []
      (Json.obj [("id", Json.num 1), ("name", Json.str "B")]) ⟨1, "B"⟩ (by rfl)).2.1
    ⟨⟨1, "A"⟩, by simp, rfl⟩

end GoCrud
